import Mathlib

/-!
Verification of the HTTP server core (src/src/http_server.cpp, src/include/http_server.h).

Shallow embedding conventions:
* C++ `std::string` byte sequences are modelled as `List Char`, each character
  standing for one byte (all inputs of interest are in the 0..255 range).
* `std::map<std::string, T>` is modelled as a key-sorted association list
  (`sInsert` mirrors `operator[]` assignment: insert in key order, replacing
  the value when the key is already present; iteration order of a `std::map`
  is ascending key order).
* Fallible parses return `Option`.
-/

/-- `List.isPrefixOf` specialised to bytes, kept as a plain recursion so that
proofs can unfold it. -/
def isPre : List Char → List Char → Bool
  | [], _ => true
  | _ :: _, [] => false
  | a :: as, b :: bs => a == b && isPre as bs

/-- `std::string::find(pat)`: index of the first occurrence of `pat`, if any
(`none` models `npos`). An empty pattern is found at index 0, as in C++. -/
def findSub (pat : List Char) : List Char → Option Nat
  | [] => if isPre pat [] then some 0 else none
  | c :: rest => if isPre pat (c :: rest) then some 0 else (findSub pat rest).map (· + 1)

/-- `std::string::find(pat, pos)`: first occurrence at index ≥ `pos`
(absolute index returned). -/
def findSubFrom (l pat : List Char) (pos : Nat) : Option Nat :=
  (findSub pat (l.drop pos)).map (· + pos)

/-- Whether `pat` occurs somewhere in `l` (`find(...) != npos`). -/
def containsSub (pat l : List Char) : Bool :=
  (findSub pat l).isSome

/-- Number of occurrences of `pat` in `l` (counted at every start position). -/
def countOcc (pat : List Char) : List Char → Nat
  | [] => if isPre pat [] then 1 else 0
  | c :: rest => (if isPre pat (c :: rest) then 1 else 0) + countOcc pat rest

/-- Construction of `std::string` from a NUL-terminated `char` buffer:
the bytes up to (excluding) the first NUL byte.  `handle_client` runs every
`recv` chunk through this (`buffer[bytes_received] = 0; std::string(buffer)`). -/
def cstr (l : List Char) : List Char :=
  l.takeWhile (fun c => !(c == Char.ofNat 0))

/-- `s.erase(0, s.find_first_not_of(" \t"))`. -/
def ltrimC (l : List Char) : List Char :=
  l.dropWhile (fun c => c == ' ' || c == '\t')

/-- `s.erase(s.find_last_not_of(" \t\r\n") + 1)`. -/
def rtrimC (l : List Char) : List Char :=
  (l.reverse.dropWhile (fun c => c == ' ' || c == '\t' || c == '\r' || c == '\n')).reverse

/-- The leading+trailing trim applied by the server to header values. -/
def trimC (l : List Char) : List Char :=
  rtrimC (ltrimC l)

/-- Worker for `getlines`: accumulates the current line (reversed). -/
def getlinesAux : List Char → List Char → List (List Char)
  | [], acc => [acc.reverse]
  | '\n' :: rest, acc =>
    match rest with
    | [] => [acc.reverse]
    | _ :: _ => acc.reverse :: getlinesAux rest []
  | c :: rest, acc => getlinesAux rest (c :: acc)

/-- The lines produced by repeated `std::getline(stream, line)` on `'\n'`:
each piece excludes the `'\n'` separator (a `'\r'` before it is kept), and a
trailing `'\n'` does not produce an extra empty line; an empty stream yields
no lines. -/
def getlines : List Char → List (List Char)
  | [] => []
  | c :: rest => getlinesAux (c :: rest) []

/-- Byte-wise lexicographic `operator<` of `std::string` (the ordering of
`std::map` keys). -/
def listLt : List Char → List Char → Bool
  | [], [] => false
  | [], _ :: _ => true
  | _ :: _, [] => false
  | a :: as, b :: bs =>
    if a.toNat < b.toNat then true
    else if b.toNat < a.toNat then false
    else listLt as bs

/-- `std::map` `operator[]` followed by assignment: insert keeping keys in
ascending `listLt` order, replacing the stored value when the key exists. -/
def sInsert {α : Type} (k : List Char) (v : α) : List (List Char × α) → List (List Char × α)
  | [] => [(k, v)]
  | (k', v') :: rest =>
    if listLt k k' then (k, v) :: (k', v') :: rest
    else if listLt k' k then (k', v') :: sInsert k v rest
    else (k, v) :: rest

/-- `std::map::find` on the association-list model. -/
def lookupS {α : Type} (l : List (List Char × α)) (k : List Char) : Option α :=
  match l with
  | [] => none
  | (k', v) :: rest => if k' == k then some v else lookupS rest k

/-! ## Percent/plus decoding (`HttpServer::url_decode`) -/

/-- Hex digits `0-9 a-f A-F` (by byte value). -/
def isHexDig (c : Char) : Bool :=
  (48 ≤ c.toNat && c.toNat ≤ 57) || (97 ≤ c.toNat && c.toNat ≤ 102) ||
    (65 ≤ c.toNat && c.toNat ≤ 70)

/-- Value of a hex digit (0 for non-digits). -/
def hexVal (c : Char) : Nat :=
  if 48 ≤ c.toNat && c.toNat ≤ 57 then c.toNat - 48
  else if 97 ≤ c.toNat && c.toNat ≤ 102 then c.toNat - 87
  else if 65 ≤ c.toNat && c.toNat ≤ 70 then c.toNat - 55
  else 0

/-- Classic-locale `isspace`, the characters skipped by formatted stream
input (space, tab, newline, vertical tab, form feed, carriage return). -/
def isCSpace (c : Char) : Bool :=
  c.toNat == 32 || c.toNat == 9 || c.toNat == 10 || c.toNat == 11 ||
    c.toNat == 12 || c.toNat == 13

/-- The byte produced by `std::istringstream(two chars) >> std::hex >> int`
followed by `static_cast<char>` (C++11: a failed extraction stores 0).
The stream skips leading whitespace and accepts an optional sign; a lone
leading hex digit is parsed when the second character is not a hex digit. -/
def hexPairByte (c1 c2 : Char) : Nat :=
  if isCSpace c1 then (if isHexDig c2 then hexVal c2 else 0)
  else if c1.toNat == 43 then (if isHexDig c2 then hexVal c2 else 0)
  else if c1.toNat == 45 then (if isHexDig c2 then (256 - hexVal c2) % 256 else 0)
  else if isHexDig c1 then
    (if isHexDig c2 then 16 * hexVal c1 + hexVal c2 else hexVal c1)
  else 0

/-- `HttpServer::url_decode`: `'%'` with at least two following characters
consumes those two and emits the stream-parsed byte; `'+'` becomes a space;
everything else (including a `'%'` with fewer than two characters left)
passes through. -/
def url_decode : List Char → List Char
  | '%' :: c1 :: c2 :: rest => Char.ofNat (hexPairByte c1 c2) :: url_decode rest
  | '+' :: rest => ' ' :: url_decode rest
  | c :: rest => c :: url_decode rest
  | [] => []

/-- Percent-encoding of the reserved set described by the spec
(Modelled from the spec: "left inverse of percent-encoding for the reserved
character set percent, plus, space"); other bytes are kept verbatim. -/
def specPercentEncode : List Char → List Char
  | [] => []
  | '%' :: rest => '%' :: '2' :: '5' :: specPercentEncode rest
  | '+' :: rest => '%' :: '2' :: 'B' :: specPercentEncode rest
  | ' ' :: rest => '%' :: '2' :: '0' :: specPercentEncode rest
  | c :: rest => c :: specPercentEncode rest

/-! ## Facts about `url_decode` -/

theorem isHexDig_ranges {c : Char} (h : isHexDig c = true) :
    (48 ≤ c.toNat ∧ c.toNat ≤ 57) ∨ (97 ≤ c.toNat ∧ c.toNat ≤ 102) ∨
      (65 ≤ c.toNat ∧ c.toNat ≤ 70) := by
  simp only [isHexDig, Bool.or_eq_true, Bool.and_eq_true, decide_eq_true_eq] at h
  omega

theorem hexPair_hex_hex {c1 c2 : Char} (h1 : isHexDig c1 = true) (h2 : isHexDig c2 = true) :
    hexPairByte c1 c2 = 16 * hexVal c1 + hexVal c2 := by
  have r1 := isHexDig_ranges h1
  have hcs : isCSpace c1 = false := by
    simp only [isCSpace, Bool.or_eq_false_iff, beq_eq_false_iff_ne, ne_eq]
    omega
  have h43 : (c1.toNat == 43) = false := by
    simp only [beq_eq_false_iff_ne, ne_eq]
    omega
  have h45 : (c1.toNat == 45) = false := by
    simp only [beq_eq_false_iff_ne, ne_eq]
    omega
  simp [hexPairByte, hcs, h43, h45, h1, h2]

theorem hexPair_hex_nonhex {c1 c2 : Char} (h1 : isHexDig c1 = true)
    (h2 : isHexDig c2 = false) : hexPairByte c1 c2 = hexVal c1 := by
  have r1 := isHexDig_ranges h1
  have hcs : isCSpace c1 = false := by
    simp only [isCSpace, Bool.or_eq_false_iff, beq_eq_false_iff_ne, ne_eq]
    omega
  have h43 : (c1.toNat == 43) = false := by
    simp only [beq_eq_false_iff_ne, ne_eq]
    omega
  have h45 : (c1.toNat == 45) = false := by
    simp only [beq_eq_false_iff_ne, ne_eq]
    omega
  simp [hexPairByte, hcs, h43, h45, h1, h2]

theorem url_decode_pct (c1 c2 : Char) (rest : List Char) :
    url_decode ('%' :: c1 :: c2 :: rest) =
      Char.ofNat (hexPairByte c1 c2) :: url_decode rest := rfl

theorem url_decode_plus (rest : List Char) :
    url_decode ('+' :: rest) = ' ' :: url_decode rest := rfl

theorem url_decode_other (c : Char) (r : List Char) (h1 : c ≠ '+')
    (h2 : c = '%' → r.length < 2) : url_decode (c :: r) = c :: url_decode r := by
  rw [url_decode.eq_def]
  split
  · rename_i heq
    obtain ⟨hc, hr⟩ := List.cons.inj heq
    subst hc
    subst hr
    have := h2 rfl
    simp only [List.length_cons] at this
    omega
  · rename_i heq
    obtain ⟨hc, hr⟩ := List.cons.inj heq
    exact absurd hc h1
  · rename_i heq
    obtain ⟨hc, hr⟩ := List.cons.inj heq
    subst hc
    subst hr
    rfl
  · rename_i heq
    cases heq

theorem specPercentEncode_other (c : Char) (rest : List Char) (h1 : c ≠ '%')
    (h2 : c ≠ '+') (h3 : c ≠ ' ') :
    specPercentEncode (c :: rest) = c :: specPercentEncode rest := by
  rw [specPercentEncode.eq_def]
  split
  · rename_i heq
    cases heq
  · rename_i heq
    obtain ⟨hc, hr⟩ := List.cons.inj heq
    exact absurd hc h1
  · rename_i heq
    obtain ⟨hc, hr⟩ := List.cons.inj heq
    exact absurd hc h2
  · rename_i heq
    obtain ⟨hc, hr⟩ := List.cons.inj heq
    exact absurd hc h3
  · rename_i heq
    obtain ⟨hc, hr⟩ := List.cons.inj heq
    subst hc
    subst hr
    rfl

theorem url_decode_encode (s : List Char) : url_decode (specPercentEncode s) = s := by
  induction s with
  | nil => rfl
  | cons c rest ih =>
    by_cases h1 : c = '%'
    · subst h1
      show url_decode ('%' :: '2' :: '5' :: specPercentEncode rest) = _
      rw [url_decode_pct, ih]
      norm_num [show hexPairByte '2' '5' = 37 from by decide]
    · by_cases h2 : c = '+'
      · subst h2
        show url_decode ('%' :: '2' :: 'B' :: specPercentEncode rest) = _
        rw [url_decode_pct, ih]
        norm_num [show hexPairByte '2' 'B' = 43 from by decide]
      · by_cases h3 : c = ' '
        · subst h3
          show url_decode ('%' :: '2' :: '0' :: specPercentEncode rest) = _
          rw [url_decode_pct, ih]
          norm_num [show hexPairByte '2' '0' = 32 from by decide]
        · rw [specPercentEncode_other c rest h1 h2 h3,
            url_decode_other c _ h2 (fun hc => absurd hc h1), ih]

/-- Claim C4 (amended): the decoder maps a percent followed by two hex digits
to the byte with that hex value, maps a plus to a space, passes every byte
that is neither a plus nor a percent-with-two-following-characters through
unchanged (which covers a malformed percent within two characters of the end
of the input), and is a left inverse of percent-encoding over the reserved
set consisting of percent, plus and space; in particular the input
a percent-2-0 b plus c decodes to a-space-b-space-c. -/
theorem C4_url_decode :
    (∀ c1 c2 rest, isHexDig c1 = true → isHexDig c2 = true →
        url_decode ('%' :: c1 :: c2 :: rest) =
          Char.ofNat (16 * hexVal c1 + hexVal c2) :: url_decode rest)
    ∧ (∀ rest, url_decode ('+' :: rest) = ' ' :: url_decode rest)
    ∧ (∀ c rest, c ≠ '+' → (c = '%' → rest.length < 2) →
        url_decode (c :: rest) = c :: url_decode rest)
    ∧ (∀ s, url_decode (specPercentEncode s) = s)
    ∧ url_decode "a%20b+c".data = "a b c".data := by
  refine ⟨?_, url_decode_plus, url_decode_other, url_decode_encode, by decide⟩
  intro c1 c2 rest h1 h2
  rw [url_decode_pct, hexPair_hex_hex h1 h2]

/-- Witness for C4: the hex-pair clause applied at the concrete input
`%20` followed by `b+c`. -/
theorem C4_url_decode_witness :
    url_decode ('%' :: '2' :: '0' :: "b+c".data) =
      Char.ofNat (16 * hexVal '2' + hexVal '0') :: url_decode "b+c".data :=
  C4_url_decode.1 '2' '0' "b+c".data (by decide) (by decide)

/-- Counterexample for C4 as stated: a `'%'` followed by two non-hex
characters (and not within two characters of the end) is not passed
through unchanged — it is consumed and replaced by the single byte 0. -/
theorem C4_url_decode_counterexample :
    url_decode ['%', 'z', 'z'] = [Char.ofNat 0] ∧
      url_decode ['%', 'z', 'z'] ≠ ['%', 'z', 'z'] := by
  decide

/-- Claim C10 (amended): every `'%'` with at least two following characters
consumes both and emits exactly one byte, namely the value of the C++ stream
hex extraction: a pair whose first character is neither a hex digit, nor a
whitespace character, nor a sign yields the byte 0; a pair whose first
character is a hex digit but whose second is not yields the value of the
partial hex parse; but the extraction skips leading whitespace (and accepts
a sign), so a pair with a non-hex leading character does not always yield 0. -/
theorem C10_percent_consumption :
    (∀ c1 c2 rest, url_decode ('%' :: c1 :: c2 :: rest) =
        Char.ofNat (hexPairByte c1 c2) :: url_decode rest)
    ∧ (∀ c1 c2, isHexDig c1 = false → isCSpace c1 = false →
        c1.toNat ≠ 43 → c1.toNat ≠ 45 → hexPairByte c1 c2 = 0)
    ∧ (∀ c1 c2, isHexDig c1 = true → isHexDig c2 = false →
        hexPairByte c1 c2 = hexVal c1)
    ∧ (∀ c1 c2, isCSpace c1 = true →
        hexPairByte c1 c2 = if isHexDig c2 then hexVal c2 else 0) := by
  refine ⟨url_decode_pct, ?_, fun c1 c2 h1 h2 => hexPair_hex_nonhex h1 h2, ?_⟩
  · intro c1 c2 h1 hcs h43 h45
    have h43' : (c1.toNat == 43) = false := by
      simp only [beq_eq_false_iff_ne, ne_eq]
      omega
    have h45' : (c1.toNat == 45) = false := by
      simp only [beq_eq_false_iff_ne, ne_eq]
      omega
    simp [hexPairByte, hcs, h43', h45', h1]
  · intro c1 c2 h
    simp [hexPairByte, h]

/-- Witness for C10: the consume-three-emit-one clause evaluated at the
concrete malformed input `%zz` followed by `a`, and the partial-parse
clause at the concrete pair `2z`. -/
theorem C10_percent_consumption_witness :
    url_decode ('%' :: 'z' :: 'z' :: ['a']) =
      Char.ofNat (hexPairByte 'z' 'z') :: url_decode ['a'] ∧
    hexPairByte '2' 'z' = hexVal '2' :=
  ⟨C10_percent_consumption.1 'z' 'z' ['a'],
    C10_percent_consumption.2.2.1 '2' 'z' (by decide) (by decide)⟩

/-- Counterexample for C10 as stated: the pair after `'%'` in `% 1` has no
leading hex digit, yet the decoder emits the byte 1 (the stream extraction
skips the leading space and parses the digit), not the byte 0. -/
theorem C10_percent_consumption_counterexample :
    url_decode ['%', ' ', '1'] = [Char.ofNat 1] ∧
      url_decode ['%', ' ', '1'] ≠ [Char.ofNat 0] := by
  decide

/-! ## Route templates and matching (`handle_client` route loop, `add_route`) -/

/-- One unit of the matching pattern obtained from a path template after
`std::regex_replace(pattern, regex of brace-name-brace, "([^/]+)")`: either a
literal character or a named single-segment wildcard. -/
inductive Tok where
  | lit (c : Char)
  | param (name : List Char)
deriving DecidableEq, Repr

/-- The token sequence of a template: every maximal `\x7bname\x7d` group with
nonempty brace-free `name` becomes a wildcard (the regex replacement is
leftmost and non-overlapping); every other character is a literal.  Literal
characters are modelled as matching themselves, which coincides with the
ECMAScript regex semantics for all templates free of regex metacharacters
(every template in this repository).  Structured with explicit fuel so the
scan is a structural recursion; the fuel `l.length` always suffices because
every step strictly shortens the list. -/
def tokenizeF : Nat → List Char → List Tok
  | 0, _ => []
  | _ + 1, [] => []
  | fuel + 1, '\x7b' :: rest =>
    let seg := rest.takeWhile (fun c => !(c == '\x7d'))
    match rest.dropWhile (fun c => !(c == '\x7d')) with
    | [] => Tok.lit '\x7b' :: tokenizeF fuel rest
    | _ :: rest2 =>
      if seg.isEmpty then Tok.lit '\x7b' :: tokenizeF fuel rest
      else Tok.param seg :: tokenizeF fuel rest2
  | fuel + 1, c :: rest => Tok.lit c :: tokenizeF fuel rest

/-- Entry point of the template scan. -/
def tokenize (l : List Char) : List Tok :=
  tokenizeF l.length l

/-- Backtracking matcher for the anchored regex built by `handle_client`
(`regex_match` requires the whole path to match).  A wildcard greedily
consumes one or more non-slash characters; on success the list of
(parameter name, captured segment) pairs is returned in template order. -/
def cmatch : List Tok → List Char → Option (List (List Char × List Char))
  | [], ps => if ps.isEmpty then some [] else none
  | Tok.lit _ :: _, [] => none
  | Tok.lit c :: ts, p :: ps => if c == p then cmatch ts ps else none
  | Tok.param _ :: _, [] => none
  | Tok.param n :: ts, p :: ps =>
    if p == '/' then none
    else
      match cmatch (Tok.param n :: ts) ps with
      | some ((n', seg) :: caps) => some ((n', p :: seg) :: caps)
      | _ =>
        match cmatch ts ps with
        | some caps => some ((n, [p]) :: caps)
        | none => none

/-- `std::regex_match(path, route_regex)` for the template `t`. -/
def routeMatches (t p : List Char) : Bool :=
  (cmatch (tokenize t) p).isSome

/-- Reconstruction of a path from a template and captured segments:
literals stay, each wildcard is replaced by its capture. -/
def fillTemplate : List Tok → List (List Char × List Char) → List Char
  | [], _ => []
  | Tok.lit c :: ts, caps => c :: fillTemplate ts caps
  | Tok.param _ :: ts, [] => fillTemplate ts []
  | Tok.param _ :: ts, (_, v) :: caps => v ++ fillTemplate ts caps

/-- `HttpServer::routes`: `std::map<std::string, std::map<std::string,
RouteHandler>>`, method to (template to handler); handlers are opaque and
modelled by numeric identifiers. -/
abbrev Routes := List (List Char × List (List Char × Nat))

/-- `HttpServer::add_route`: `routes[method][path] = handler`. -/
def add_route (routes : Routes) (method path : List Char) (handler : Nat) : Routes :=
  sInsert method (sInsert path handler ((lookupS routes method).getD [])) routes

/-- Inner loop of `handle_client`'s route search: first template (in the
inner map's iteration order) whose regex matches the path wins. -/
def findRouteIn : List (List Char × Nat) → List Char → Option Nat
  | [], _ => none
  | (t, h) :: rest, p => if routeMatches t p then some h else findRouteIn rest p

/-- Outer loop of `handle_client`'s route search: scan the method map in
its iteration order, and for the matching method scan its templates. -/
def findRoute : Routes → List Char → List Char → Option Nat
  | [], _, _ => none
  | (m', inner) :: rest, m, p =>
    if m' == m then
      match findRouteIn inner p with
      | some h => some h
      | none => findRoute rest m p
    else findRoute rest m p

/-- Strict ascending key order: every key `listLt`-precedes every later key.
This is the `std::map` iteration-order invariant. -/
def pairwiseLt : List (List Char) → Bool
  | [] => true
  | k :: ks => ks.all (fun k' => listLt k k') && pairwiseLt ks

/-- The `std::map` invariants of the route table: outer keys (methods) in
strict ascending order, and each inner template map likewise. -/
def routesSorted (routes : Routes) : Bool :=
  pairwiseLt (routes.map Prod.fst) &&
    routes.all (fun e => pairwiseLt (e.2.map Prod.fst))

/-! ## Ordering facts about `listLt` and `sInsert` -/

theorem char_toNat_inj {a b : Char} (h : a.toNat = b.toNat) : a = b :=
  Char.eq_of_val_eq (UInt32.ext h)

theorem listLt_irrefl (l : List Char) : listLt l l = false := by
  induction l with
  | nil => rfl
  | cons a as ih => simp [listLt, ih]

theorem listLt_asymm {a b : List Char} (h : listLt a b = true) : listLt b a = false := by
  induction a generalizing b with
  | nil =>
    cases b with
    | nil => simp [listLt] at h
    | cons y ys => simp [listLt]
  | cons x xs ih =>
    cases b with
    | nil => simp [listLt] at h
    | cons y ys =>
      simp only [listLt] at h ⊢
      by_cases h1 : x.toNat < y.toNat
      · simp [Nat.lt_asymm h1, h1]
      · by_cases h2 : y.toNat < x.toNat
        · simp [h1, h2] at h
        · simp only [h1, h2, if_false] at h ⊢
          exact ih h

theorem listLt_trans {a b c : List Char} (h1 : listLt a b = true)
    (h2 : listLt b c = true) : listLt a c = true := by
  induction a generalizing b c with
  | nil =>
    cases b with
    | nil => simp [listLt] at h1
    | cons y ys =>
      cases c with
      | nil => simp [listLt] at h2
      | cons z zs => simp [listLt]
  | cons x xs ih =>
    cases b with
    | nil => simp [listLt] at h1
    | cons y ys =>
      cases c with
      | nil => simp [listLt] at h2
      | cons z zs =>
        simp only [listLt] at h1 h2 ⊢
        by_cases e1 : x.toNat < y.toNat
        · by_cases e2 : y.toNat < z.toNat
          · simp [show x.toNat < z.toNat from Nat.lt_trans e1 e2]
          · by_cases e3 : z.toNat < y.toNat
            · simp [e2, e3] at h2
            · have : y.toNat = z.toNat := by omega
              simp [this] at e1
              simp [e1]
        · by_cases e4 : y.toNat < x.toNat
          · simp [e1, e4] at h1
          · have exy : x.toNat = y.toNat := by omega
            by_cases e2 : y.toNat < z.toNat
            · simp [show x.toNat < z.toNat from exy ▸ e2]
            · by_cases e3 : z.toNat < y.toNat
              · simp [e2, e3] at h2
              · have eyz : y.toNat = z.toNat := by omega
                simp only [e1, e4, if_false] at h1
                simp only [e2, e3, if_false] at h2
                have : ¬ x.toNat < z.toNat := by omega
                have : ¬ z.toNat < x.toNat := by omega
                simp only [show ¬ x.toNat < z.toNat from by omega,
                  show ¬ z.toNat < x.toNat from by omega, if_false]
                exact ih h1 h2

theorem listLt_total_eq {a b : List Char} (h1 : listLt a b = false)
    (h2 : listLt b a = false) : a = b := by
  induction a generalizing b with
  | nil =>
    cases b with
    | nil => rfl
    | cons y ys => simp [listLt] at h1
  | cons x xs ih =>
    cases b with
    | nil => simp [listLt] at h2
    | cons y ys =>
      simp only [listLt] at h1 h2
      by_cases e1 : x.toNat < y.toNat
      · simp [e1] at h1
      · by_cases e2 : y.toNat < x.toNat
        · simp [e1, e2] at h2
        · simp only [e1, e2, if_false] at h1 h2
          have : x = y := char_toNat_inj (by omega)
          rw [this, ih h1 h2]

theorem mem_sInsert {α : Type} {x : List Char × α} {k : List Char} {v : α}
    {l : List (List Char × α)} (h : x ∈ sInsert k v l) : x = (k, v) ∨ x ∈ l := by
  induction l with
  | nil => simpa [sInsert] using h
  | cons e rest ih =>
    obtain ⟨k', v'⟩ := e
    simp only [sInsert] at h
    by_cases h1 : listLt k k' = true
    · simp only [h1, if_true] at h
      rcases List.mem_cons.mp h with h' | h'
      · exact Or.inl h'
      · exact Or.inr h'
    · by_cases h2 : listLt k' k = true
      · simp only [h1, h2, if_true, if_false] at h
        rcases List.mem_cons.mp h with h' | h'
        · exact Or.inr (List.mem_cons.mpr (Or.inl h'))
        · rcases ih h' with h'' | h''
          · exact Or.inl h''
          · exact Or.inr (List.mem_cons.mpr (Or.inr h''))
      · simp only [h1, h2, if_false] at h
        rcases List.mem_cons.mp h with h' | h'
        · exact Or.inl h'
        · exact Or.inr (List.mem_cons.mpr (Or.inr h'))

theorem mem_keys_sInsert {α : Type} {k2 k : List Char} {v : α}
    {l : List (List Char × α)} (h : k2 ∈ (sInsert k v l).map Prod.fst) :
    k2 = k ∨ k2 ∈ l.map Prod.fst := by
  rcases List.mem_map.mp h with ⟨x, hx, hk⟩
  rcases mem_sInsert hx with h' | h'
  · left
    rw [← hk, h']
  · right
    exact List.mem_map.mpr ⟨x, h', hk⟩

theorem lookupS_mem {α : Type} {l : List (List Char × α)} {k : List Char} {v : α}
    (h : lookupS l k = some v) : (k, v) ∈ l := by
  induction l with
  | nil => simp [lookupS] at h
  | cons e rest ih =>
    obtain ⟨k', v'⟩ := e
    simp only [lookupS] at h
    by_cases hb : (k' == k) = true
    · simp only [hb, if_true, Option.some.injEq] at h
      exact List.mem_cons.mpr (Or.inl (by rw [← eq_of_beq hb, ← h]))
    · simp only [Bool.not_eq_true] at hb
      simp only [hb, Bool.false_eq_true, if_false] at h
      exact List.mem_cons.mpr (Or.inr (ih h))

theorem lookupS_sInsert_self {α : Type} (k : List Char) (v : α)
    (l : List (List Char × α)) : lookupS (sInsert k v l) k = some v := by
  induction l with
  | nil => simp [sInsert, lookupS]
  | cons e rest ih =>
    obtain ⟨k', v'⟩ := e
    by_cases h1 : listLt k k' = true
    · simp [sInsert, h1, lookupS]
    · by_cases h2 : listLt k' k = true
      · have hne : (k' == k) = false := by
          simp only [beq_eq_false_iff_ne, ne_eq]
          intro he
          rw [he, listLt_irrefl] at h2
          exact Bool.noConfusion h2
        simp [sInsert, h1, h2, lookupS, hne, ih]
      · simp [sInsert, h1, h2, lookupS]

theorem sInsert_collapse {α : Type} (k : List Char) (v1 v2 : α)
    (l : List (List Char × α)) : sInsert k v2 (sInsert k v1 l) = sInsert k v2 l := by
  induction l with
  | nil => simp [sInsert, listLt_irrefl]
  | cons e rest ih =>
    obtain ⟨k', v'⟩ := e
    by_cases h1 : listLt k k' = true
    · simp [sInsert, h1, listLt_irrefl]
    · by_cases h2 : listLt k' k = true
      · simp [sInsert, h1, h2, ih]
      · simp [sInsert, h1, h2, listLt_irrefl]

theorem pairwiseLt_sInsert {α : Type} {k : List Char} {v : α}
    {l : List (List Char × α)} (hp : pairwiseLt (l.map Prod.fst) = true) :
    pairwiseLt ((sInsert k v l).map Prod.fst) = true := by
  induction l with
  | nil => simp [sInsert, pairwiseLt]
  | cons e rest ih =>
    obtain ⟨k', v'⟩ := e
    simp only [List.map_cons, pairwiseLt, Bool.and_eq_true, List.all_eq_true] at hp
    obtain ⟨hall, hrest⟩ := hp
    by_cases h1 : listLt k k' = true
    · simp only [sInsert, h1, if_true, List.map_cons, pairwiseLt, Bool.and_eq_true,
        List.all_eq_true]
      refine ⟨?_, ?_, hrest⟩
      · intro x hx
        rcases List.mem_cons.mp hx with h' | h'
        · rw [h']
          exact h1
        · exact listLt_trans h1 (hall x h')
      · exact hall
    · by_cases h2 : listLt k' k = true
      · simp only [sInsert, h1, h2, if_true, if_false, List.map_cons, pairwiseLt,
          Bool.and_eq_true, List.all_eq_true]
        refine ⟨?_, ih hrest⟩
        intro x hx
        rcases mem_keys_sInsert hx with h' | h'
        · rw [h']
          exact h2
        · exact hall x h'
      · have hkk : k = k' := listLt_total_eq (Bool.not_eq_true _ ▸ h1)
          (Bool.not_eq_true _ ▸ h2)
        simp only [sInsert, h1, h2, if_false, List.map_cons, pairwiseLt,
          Bool.and_eq_true, List.all_eq_true]
        subst hkk
        exact ⟨hall, hrest⟩

/-! ## Route search: first match in map iteration order -/

theorem findRouteIn_min {l : List (List Char × Nat)} {p : List Char} {h : Nat}
    (hs : pairwiseLt (l.map Prod.fst) = true) (hf : findRouteIn l p = some h) :
    ∃ t, (t, h) ∈ l ∧ routeMatches t p = true ∧
      ∀ t' h', (t', h') ∈ l → routeMatches t' p = true → listLt t' t = false := by
  induction l with
  | nil => simp [findRouteIn] at hf
  | cons e rest ih =>
    obtain ⟨t0, h0⟩ := e
    simp only [List.map_cons, pairwiseLt, Bool.and_eq_true, List.all_eq_true] at hs
    obtain ⟨hall, hrest⟩ := hs
    simp only [findRouteIn] at hf
    by_cases hm : routeMatches t0 p = true
    · simp only [hm, if_true, Option.some.injEq] at hf
      subst hf
      refine ⟨t0, List.mem_cons_self _ _, hm, ?_⟩
      intro t' h' hmem hm'
      rcases List.mem_cons.mp hmem with he | he
      · have ht : t' = t0 := congrArg Prod.fst he
        rw [ht]
        exact listLt_irrefl t0
      · exact listLt_asymm (hall t' (List.mem_map.mpr ⟨(t', h'), he, rfl⟩))
    · rw [if_neg hm] at hf
      obtain ⟨t, hmem, hmt, hmin⟩ := ih hrest hf
      refine ⟨t, List.mem_cons.mpr (Or.inr hmem), hmt, ?_⟩
      intro t' h' hmem' hm'
      rcases List.mem_cons.mp hmem' with he | he
      · exfalso
        apply hm
        have ht : t' = t0 := congrArg Prod.fst he
        rw [← ht]
        exact hm'
      · exact hmin t' h' he hm'

theorem findRoute_none {routes : Routes} {m p : List Char}
    (h : m ∉ routes.map Prod.fst) : findRoute routes m p = none := by
  induction routes with
  | nil => rfl
  | cons e rest ih =>
    obtain ⟨m', inner⟩ := e
    simp only [List.map_cons, List.mem_cons] at h
    push_neg at h
    obtain ⟨h1, h2⟩ := h
    have hb : (m' == m) = false := by
      simp only [beq_eq_false_iff_ne, ne_eq]
      exact fun he => h1 he.symm
    simp [findRoute, hb, ih h2]

theorem findRoute_min {routes : Routes} {m p : List Char} {h : Nat}
    (hs : routesSorted routes = true) (hf : findRoute routes m p = some h) :
    ∃ inner, lookupS routes m = some inner ∧ ∃ t, (t, h) ∈ inner ∧
      routeMatches t p = true ∧
      ∀ t' h', (t', h') ∈ inner → routeMatches t' p = true →
        listLt t' t = false := by
  induction routes with
  | nil => simp [findRoute] at hf
  | cons e rest ih =>
    obtain ⟨m0, inner0⟩ := e
    have hs' := hs
    simp only [routesSorted, List.map_cons, pairwiseLt, List.all_cons,
      Bool.and_eq_true, List.all_eq_true] at hs'
    obtain ⟨⟨hall, hpr⟩, hin0, hinr⟩ := hs'
    have hrest : routesSorted rest = true := by
      simp only [routesSorted, Bool.and_eq_true, List.all_eq_true]
      exact ⟨hpr, hinr⟩
    simp only [findRoute] at hf
    by_cases hm : (m0 == m) = true
    · simp only [hm, if_true] at hf
      match heq : findRouteIn inner0 p with
      | some h1 =>
        rw [heq] at hf
        have hh : h1 = h := Option.some.injEq .. ▸ hf
        subst hh
        refine ⟨inner0, ?_, findRouteIn_min hin0 heq⟩
        simp [lookupS, hm]
      | none =>
        rw [heq] at hf
        have hmeq : m0 = m := eq_of_beq hm
        have hnm : m ∉ rest.map Prod.fst := by
          intro hmem
          have hlt := hall m hmem
          rw [hmeq, listLt_irrefl] at hlt
          exact Bool.noConfusion hlt
        rw [findRoute_none hnm] at hf
        cases hf
    · rw [if_neg (by simpa using hm)] at hf
      obtain ⟨inner, hl, rest_part⟩ := ih hrest hf
      refine ⟨inner, ?_, rest_part⟩
      simp only [lookupS, hm, Bool.false_eq_true, if_false]
      exact hl

theorem routesSorted_add_route {routes : Routes} (m t : List Char) (h : Nat)
    (hs : routesSorted routes = true) :
    routesSorted (add_route routes m t h) = true := by
  simp only [routesSorted, Bool.and_eq_true, List.all_eq_true] at hs ⊢
  obtain ⟨houter, hinner⟩ := hs
  refine ⟨pairwiseLt_sInsert houter, ?_⟩
  intro e he
  rcases mem_sInsert he with h' | h'
  · rw [h']
    apply pairwiseLt_sInsert
    match hl : lookupS routes m with
    | some inner =>
      simp only [hl, Option.getD_some]
      exact hinner _ (lookupS_mem hl)
    | none => simp [hl, pairwiseLt]
  · exact hinner e h'

/-- Claim C1 (amended): the route table is a `std::map` keyed by method and
then by template string, so route search scans the templates of the request
method in ascending lexicographic (byte-wise) order of the template string,
and the lexicographically least matching template wins — independent of
registration order, which only determines the stored handler when the same
(method, template) key is registered twice.  `add_route` preserves the map
ordering invariant, and any handler returned by `findRoute` belongs to a
matching template that no other matching template of that method strictly
precedes in lexicographic order. -/
theorem C1_route_precedence :
    (∀ routes m t h, routesSorted routes = true →
        routesSorted (add_route routes m t h) = true)
    ∧ (∀ routes m p h, routesSorted routes = true → findRoute routes m p = some h →
        ∃ inner, lookupS routes m = some inner ∧ ∃ t, (t, h) ∈ inner ∧
          routeMatches t p = true ∧
          ∀ t' h', (t', h') ∈ inner → routeMatches t' p = true →
            listLt t' t = false) :=
  ⟨fun _ m t h hs => routesSorted_add_route m t h hs,
   fun _ _ _ _ hs hf => findRoute_min hs hf⟩

/-- Witness for C1: on the concrete two-route table (wildcard template
registered first, literal template second) the search result is handler 2,
attached to the lexicographically least matching template. -/
theorem C1_route_precedence_witness :
    ∃ inner, lookupS (add_route (add_route [] "GET".data "/\x7bx\x7d".data 1)
        "GET".data "/b".data 2) "GET".data = some inner ∧
      ∃ t, (t, 2) ∈ inner ∧ routeMatches t "/b".data = true ∧
        ∀ t' h', (t', h') ∈ inner → routeMatches t' "/b".data = true →
          listLt t' t = false :=
  C1_route_precedence.2
    (add_route (add_route [] "GET".data "/\x7bx\x7d".data 1) "GET".data "/b".data 2)
    "GET".data "/b".data 2 (by decide) (by decide)

/-- Counterexample for C1 as stated: the wildcard route is registered first,
so registration-order precedence would invoke handler 1 on path `/b`; the
code iterates the inner `std::map` in lexicographic template order and
invokes handler 2 instead. -/
theorem C1_route_precedence_counterexample :
    findRoute (add_route (add_route [] "GET".data "/\x7bx\x7d".data 1)
        "GET".data "/b".data 2) "GET".data "/b".data = some 2 ∧
    findRoute (add_route (add_route [] "GET".data "/\x7bx\x7d".data 1)
        "GET".data "/b".data 2) "GET".data "/b".data ≠ some 1 := by
  decide

/-- Claim C9: `routes[method][path] = handler` with `std::map` semantics
replaces the previously stored handler for the same (method, template) key:
adding twice leaves exactly the table obtained by adding only the second
handler, and looking the key up yields the second handler. -/
theorem C9_add_route_replaces (routes : Routes) (m t : List Char) (h1 h2 : Nat) :
    add_route (add_route routes m t h1) m t h2 = add_route routes m t h2 ∧
    lookupS ((lookupS (add_route (add_route routes m t h1) m t h2) m).getD []) t
      = some h2 := by
  have key : add_route (add_route routes m t h1) m t h2 = add_route routes m t h2 := by
    unfold add_route
    rw [lookupS_sInsert_self]
    simp only [Option.getD_some]
    rw [sInsert_collapse, sInsert_collapse]
  refine ⟨key, ?_⟩
  rw [key]
  unfold add_route
  rw [lookupS_sInsert_self]
  simp only [Option.getD_some]
  exact lookupS_sInsert_self t h2 _

/-! ## Soundness of template matching (anchoring, one segment per wildcard) -/

theorem cmatch_sound_aux : ∀ (n : Nat) (ts : List Tok) (p : List Char)
    (caps : List (List Char × List Char)), p.length ≤ n → cmatch ts p = some caps →
    fillTemplate ts caps = p ∧
      ∀ pr ∈ caps, pr.2 ≠ [] ∧ pr.2.all (fun c => !(c == '/')) = true := by
  intro n
  induction n with
  | zero =>
    intro ts p caps hlen hm
    have hp : p = [] := List.length_eq_zero.mp (Nat.le_zero.mp hlen)
    subst hp
    cases ts with
    | nil =>
      simp only [cmatch, List.isEmpty_nil, if_true, Option.some.injEq] at hm
      subst hm
      exact ⟨rfl, by simp⟩
    | cons t ts' =>
      cases t with
      | lit c => simp [cmatch] at hm
      | param nm => simp [cmatch] at hm
  | succ n ih =>
    intro ts p caps hlen hm
    cases ts with
    | nil =>
      cases p with
      | nil =>
        simp only [cmatch, List.isEmpty_nil, if_true, Option.some.injEq] at hm
        subst hm
        exact ⟨rfl, by simp⟩
      | cons q qs => simp [cmatch] at hm
    | cons t ts' =>
      cases t with
      | lit c =>
        cases p with
        | nil => simp [cmatch] at hm
        | cons q qs =>
          simp only [cmatch] at hm
          by_cases hc : (c == q) = true
          · rw [if_pos hc] at hm
            obtain ⟨hfill, hcaps⟩ := ih ts' qs caps
              (by simp only [List.length_cons] at hlen; omega) hm
            refine ⟨?_, hcaps⟩
            simp only [fillTemplate, hfill, eq_of_beq hc]
          · rw [if_neg (by simpa using hc)] at hm
            cases hm
      | param nm =>
        cases p with
        | nil => simp [cmatch] at hm
        | cons q qs =>
          simp only [cmatch] at hm
          by_cases hq : (q == '/') = true
          · rw [if_pos hq] at hm
            cases hm
          · rw [if_neg (by simpa using hq)] at hm
            have hlen' : qs.length ≤ n := by
              simp only [List.length_cons] at hlen
              omega
            match hrec : cmatch (Tok.param nm :: ts') qs with
            | some ((n', seg) :: caps') =>
              rw [hrec] at hm
              simp only [Option.some.injEq] at hm
              subst hm
              obtain ⟨hfill, hcaps⟩ := ih (Tok.param nm :: ts') qs ((n', seg) :: caps')
                hlen' hrec
              refine ⟨?_, ?_⟩
              · simp only [fillTemplate] at hfill ⊢
                rw [List.cons_append, hfill]
              · intro pr hpr
                rcases List.mem_cons.mp hpr with h' | h'
                · subst h'
                  refine ⟨by simp, ?_⟩
                  have hseg := (hcaps (n', seg) (List.mem_cons_self _ _)).2
                  simp only [List.all_cons, Bool.and_eq_true]
                  exact ⟨by simpa using hq, hseg⟩
                · exact hcaps pr (List.mem_cons.mpr (Or.inr h'))
            | some [] =>
              rw [hrec] at hm
              match hrec2 : cmatch ts' qs with
              | some caps' =>
                rw [hrec2] at hm
                simp only [Option.some.injEq] at hm
                subst hm
                obtain ⟨hfill, hcaps⟩ := ih ts' qs caps' hlen' hrec2
                refine ⟨?_, ?_⟩
                · simp only [fillTemplate]
                  rw [List.cons_append, List.nil_append, hfill]
                · intro pr hpr
                  rcases List.mem_cons.mp hpr with h' | h'
                  · subst h'
                    exact ⟨by simp, by simp only [List.all_cons, List.all_nil,
                        Bool.and_eq_true]; exact ⟨by simpa using hq, trivial⟩⟩
                  · exact hcaps pr h'
              | none =>
                rw [hrec2] at hm
                cases hm
            | none =>
              rw [hrec] at hm
              match hrec2 : cmatch ts' qs with
              | some caps' =>
                rw [hrec2] at hm
                simp only [Option.some.injEq] at hm
                subst hm
                obtain ⟨hfill, hcaps⟩ := ih ts' qs caps' hlen' hrec2
                refine ⟨?_, ?_⟩
                · simp only [fillTemplate]
                  rw [List.cons_append, List.nil_append, hfill]
                · intro pr hpr
                  rcases List.mem_cons.mp hpr with h' | h'
                  · subst h'
                    exact ⟨by simp, by simp only [List.all_cons, List.all_nil,
                        Bool.and_eq_true]; exact ⟨by simpa using hq, trivial⟩⟩
                  · exact hcaps pr h'
              | none =>
                rw [hrec2] at hm
                cases hm

/-- Claim C5: template matching is anchored to the whole path — whenever the
matcher accepts, the path is exactly the template with every wildcard
replaced by its captured segment, every captured segment is nonempty and
contains no slash, and literal characters must coincide. In particular the
template for api-data-collection-id matches `/api/data/users/42` capturing
collection = users and id = 42, and matches neither `/api/data/users` nor
`/api/data/users/42/extra`. -/
theorem C5_template_matching :
    (∀ ts p caps, cmatch ts p = some caps →
        fillTemplate ts caps = p ∧
          ∀ pr ∈ caps, pr.2 ≠ [] ∧ pr.2.all (fun c => !(c == '/')) = true)
    ∧ cmatch (tokenize "/api/data/\x7bcollection\x7d/\x7bid\x7d".data)
        "/api/data/users/42".data =
        some [("collection".data, "users".data), ("id".data, "42".data)]
    ∧ cmatch (tokenize "/api/data/\x7bcollection\x7d/\x7bid\x7d".data)
        "/api/data/users".data = none
    ∧ cmatch (tokenize "/api/data/\x7bcollection\x7d/\x7bid\x7d".data)
        "/api/data/users/42/extra".data = none :=
  ⟨fun ts p caps hm => cmatch_sound_aux p.length ts p caps (Nat.le_refl _) hm,
    by decide, by decide, by decide⟩

/-- Witness for C5: the anchoring statement applied to the concrete
data-collection-id template and the path `/api/data/users/42`. -/
theorem C5_template_matching_witness :
    fillTemplate (tokenize "/api/data/\x7bcollection\x7d/\x7bid\x7d".data)
        [("collection".data, "users".data), ("id".data, "42".data)] =
      "/api/data/users/42".data ∧
    ∀ pr ∈ [("collection".data, "users".data), ("id".data, "42".data)],
      pr.2 ≠ [] ∧ pr.2.all (fun c => !(c == '/')) = true :=
  C5_template_matching.1 _ _ _ (by decide)

/-! ## Response serialisation (`HttpServer::build_response`) -/

/-- `HttpResponse` (include/http_server.h): status, status text, header map
(key-sorted association list, the `std::map` model), text body, binary
payload, binary flag. -/
structure HttpResponse where
  status_code : Nat
  status_text : List Char
  headers : List (List Char × List Char)
  body : List Char
  binary_data : List Char
  is_binary : Bool

/-- Decimal rendering of a number by `operator<<` (non-negative case). -/
def natChars (n : Nat) : List Char :=
  Nat.toDigits 10 n

/-- The header-emission loop of `build_response`: one `Key: Value` CRLF line
per map entry, in map iteration order. -/
def headerBlock : List (List Char × List Char) → List Char
  | [] => []
  | (k, v) :: rest => k ++ ": ".data ++ v ++ "\r\n".data ++ headerBlock rest

/-- `HttpServer::build_response`: status line, every stored header, then a
freshly computed `Content-Length` (binary payload size if the binary flag is
set, else text body length), a blank line, and the text body unless binary. -/
def build_response (r : HttpResponse) : List Char :=
  "HTTP/1.1 ".data ++ natChars r.status_code ++ [' '] ++ r.status_text
    ++ "\r\n".data
    ++ headerBlock r.headers
    ++ "Content-Length: ".data
    ++ natChars (if r.is_binary then r.binary_data.length else r.body.length)
    ++ "\r\n".data
    ++ "\r\n".data
    ++ (if r.is_binary then [] else r.body)

/-- The header lines that `build_response` actually emits: the stored map
entries followed by the computed `Content-Length` entry. -/
def emitted_headers (r : HttpResponse) : List (List Char × List Char) :=
  r.headers ++ [("Content-Length".data,
    natChars (if r.is_binary then r.binary_data.length else r.body.length))]

/-- Number of emitted header entries whose key is `Content-Length`. -/
def countCLKeys (l : List (List Char × List Char)) : Nat :=
  (l.filter (fun p => p.1 == "Content-Length".data)).length

theorem headerBlock_append (a b : List (List Char × List Char)) :
    headerBlock (a ++ b) = headerBlock a ++ headerBlock b := by
  induction a with
  | nil => simp [headerBlock]
  | cons e rest ih =>
    obtain ⟨k, v⟩ := e
    simp [headerBlock, ih, List.append_assoc]

/-- A response whose caller already stored a `Content-Length` entry in the
header map (the situation the claim says is overridden without duplicates). -/
def dupCLResponse : HttpResponse :=
  ⟨200, "OK".data, [("Content-Length".data, "999".data)], "ok".data, [], false⟩

/-- Claim C3 (amended): the wire bytes always contain a `Content-Length`
header computed at build time — the binary payload byte count when the
binary flag is set, the text body length otherwise — emitted after every
entry of the caller's header map; the caller's entries are emitted verbatim,
so when the caller also stored an entry under the `Content-Length` key the
output contains that entry too, i.e. one more `Content-Length` line than
the caller stored (exactly one only when the caller stored none; there is no
override). -/
theorem C3_content_length (r : HttpResponse) :
    build_response r =
      "HTTP/1.1 ".data ++ natChars r.status_code ++ [' '] ++ r.status_text
        ++ "\r\n".data ++ headerBlock (emitted_headers r) ++ "\r\n".data
        ++ (if r.is_binary then [] else r.body)
    ∧ countCLKeys (emitted_headers r) = countCLKeys r.headers + 1 := by
  constructor
  · unfold build_response emitted_headers
    rw [headerBlock_append]
    simp [headerBlock, List.append_assoc]
  · unfold emitted_headers countCLKeys
    simp [List.filter_append]

/-- Counterexample for C3 as stated: with a caller-stored `Content-Length`
entry the wire bytes contain the substring `Content-Length:` twice, not
exactly once. -/
theorem C3_content_length_counterexample :
    countOcc "Content-Length:".data (build_response dupCLResponse) = 2 ∧
      countOcc "Content-Length:".data (build_response dupCLResponse) ≠ 1 := by
  decide

/-- Claim C8: building a 200/OK text response with body `ok` yields the
status line `HTTP/1.1 200 OK` followed by CRLF, the caller's headers, a
`Content-Length: 2` line, a blank line, and then exactly the body `ok`;
with no caller headers the full wire bytes are
`HTTP/1.1 200 OK` CRLF `Content-Length: 2` CRLF CRLF `ok`. -/
theorem C8_build_response_ok :
    (∀ hs, build_response ⟨200, "OK".data, hs, "ok".data, [], false⟩ =
        "HTTP/1.1 200 OK\r\n".data ++ headerBlock hs
          ++ "Content-Length: 2\r\n\r\nok".data)
    ∧ build_response ⟨200, "OK".data, [], "ok".data, [], false⟩ =
        "HTTP/1.1 200 OK\r\nContent-Length: 2\r\n\r\nok".data := by
  constructor
  · intro hs
    unfold build_response
    have hA : "HTTP/1.1 200 OK\r\n".data =
        "HTTP/1.1 ".data ++ natChars 200 ++ [' '] ++ "OK".data ++ "\r\n".data := by
      decide
    have hB : "Content-Length: 2\r\n\r\nok".data =
        "Content-Length: ".data ++ natChars ("ok".data.length) ++ "\r\n".data
          ++ "\r\n".data ++ "ok".data := by
      decide
    rw [hA, hB]
    simp [List.append_assoc]
  · decide

/-! ## Multipart decoding (`HttpServer::parse_multipart_form_data`) -/

/-- `HttpRequest::FileData`: filename, content type, raw payload bytes. -/
structure FileData where
  filename : List Char
  content_type : List Char
  data : List Char
deriving DecidableEq, Repr

/-- One step of the per-part header loop: a `Content-Disposition` line
updates `name` (text after the first `name="` up to the next quote, if a
closing quote exists) and `filename` (same for `filename="`); otherwise a
`Content-Type` line stores the trimmed text after its first 13 characters.
State is `(name, filename, content_type)`. -/
def scanPartHeader (st : List Char × List Char × List Char) (line : List Char) :
    List Char × List Char × List Char :=
  let name := st.1
  let filename := st.2.1
  let ctype := st.2.2
  if containsSub "Content-Disposition:".data line then
    let name' :=
      match findSub "name=\"".data line with
      | none => name
      | some i =>
        let after := line.drop (i + 6)
        match findSub "\"".data after with
        | none => name
        | some _ => after.takeWhile (fun c => !(c == '"'))
    let filename' :=
      match findSub "filename=\"".data line with
      | none => filename
      | some i =>
        let after := line.drop (i + 10)
        match findSub "\"".data after with
        | none => filename
        | some _ => after.takeWhile (fun c => !(c == '"'))
    (name', filename', ctype)
  else if containsSub "Content-Type:".data line then
    (name, filename, trimC (line.drop 13))
  else st

/-- The header scan of one multipart part (`std::getline` over the header
block, initial state empty). -/
def parsePartHeaders (headers : List Char) : List Char × List Char × List Char :=
  (getlines headers).foldl scanPartHeader ([], [], [])

/-- The delimiter-scanning loop of `parse_multipart_form_data`.  The fuel is
only a structural-recursion device: every iteration moves the scan position
strictly forward, so `body.length + 1` iterations always suffice.
`content_end - pos - 2` is a `size_t` subtraction in the C++, so when
`content_end < pos + 2` it wraps around and `substr` clamps to the rest of
the string. -/
def mpLoop (body delim : List Char) :
    Nat → Nat → List (List Char × List Char) → List (List Char × FileData) →
    List (List Char × List Char) × List (List Char × FileData)
  | 0, _, form, files => (form, files)
  | fuel + 1, pos, form, files =>
    match findSubFrom body delim pos with
    | none => (form, files)
    | some q =>
      let pos1 := q + delim.length
      if body.length ≤ pos1 then (form, files)
      else if (body.drop pos1).take 2 = "--".data then (form, files)
      else
        match findSubFrom body "\r\n\r\n".data pos1 with
        | none => (form, files)
        | some he =>
          let hdrs := (body.drop pos1).take (he - pos1)
          let pos2 := he + 4
          match findSubFrom body delim pos2 with
          | none => (form, files)
          | some ce =>
            let content :=
              if ce < pos2 + 2 then body.drop pos2
              else (body.drop pos2).take (ce - pos2 - 2)
            let st := parsePartHeaders hdrs
            if st.2.1.isEmpty then
              mpLoop body delim fuel ce (sInsert st.1 content form) files
            else
              mpLoop body delim fuel ce form
                (sInsert st.1 ⟨st.2.1, st.2.2, content⟩ files)

/-- `HttpServer::parse_multipart_form_data`: scan the body for
`--boundary` delimiters and store each part as a form field (no filename)
or a file entry (filename present); the part payload is the content between
the header block and the next delimiter minus its trailing CRLF. -/
def parse_multipart_form_data (body boundary : List Char) :
    List (List Char × List Char) × List (List Char × FileData) :=
  mpLoop body ("--".data ++ boundary) (body.length + 1) 0 [] []

/-- The multipart body of claim C6: boundary `X`, one field part named
`title` with payload `Hi`, one file part named `avatar` with filename
`a.png`, content type `image/png` and payload `PNG`, then the closing
delimiter. -/
def mpBody : List Char :=
  "--X\r\nContent-Disposition: form-data; name=\"title\"\r\n\r\nHi\r\n--X\r\nContent-Disposition: form-data; name=\"avatar\"; filename=\"a.png\"\r\nContent-Type: image/png\r\n\r\nPNG\r\n--X--\r\n".data

set_option maxRecDepth 4000

/-- Claim C6: decoding `mpBody` with boundary `X` yields exactly the form
field mapping title to `Hi` and the file mapping avatar to filename
`a.png`, content type `image/png`, and bytes equal to that part's payload
(the content between its header block and the next delimiter minus the
trailing CRLF). -/
theorem C6_multipart_decode :
    parse_multipart_form_data mpBody "X".data =
      ([("title".data, "Hi".data)],
       [("avatar".data, ⟨"a.png".data, "image/png".data, "PNG".data⟩)]) := by
  decide

/-! ## Connection handler body reassembly (`HttpServer::handle_client`) -/

/-- `std::stoul` on the already-trimmed `Content-Length` text: skip classic
whitespace, accept an optional sign, then parse a nonempty longest decimal
digit prefix; `none` models a thrown exception (no digits, or out of the
`unsigned long` range); a minus sign wraps modulo 2 to the 64 as unsigned
negation does. -/
def stoulOpt (l : List Char) : Option Nat :=
  let l1 := l.dropWhile isCSpace
  let signed : Bool × List Char :=
    match l1 with
    | '+' :: r => (false, r)
    | '-' :: r => (true, r)
    | r => (false, r)
  let ds := signed.2.takeWhile (fun c => 48 ≤ c.toNat && c.toNat ≤ 57)
  if ds.isEmpty then none
  else
    let n := ds.foldl (fun a c => a * 10 + (c.toNat - 48)) 0
    if 2 ^ 64 ≤ n then none
    else some (if signed.1 then (2 ^ 64 - n) % 2 ^ 64 else n)

/-- The `Content-Length` extraction performed by `handle_client`: first
occurrence of `Content-Length:` anywhere in the buffer, the next CRLF after
it, the text in between trimmed, then `stoul`; `none` when the header, the
line end, or a parseable number is missing. -/
def clParse (buf : List Char) : Option Nat :=
  match findSub "Content-Length:".data buf with
  | none => none
  | some i =>
    match findSubFrom buf "\r\n".data i with
    | none => none
    | some j => stoulOpt (trimC ((buf.drop (i + 15)).take (j - i - 15)))

/-- The body-read loop of `handle_client`: while fewer than `cl` body bytes
have been counted, take the next `recv` result; a result with no bytes
(peer closed or error) breaks; otherwise the chunk is appended through the
NUL-truncating `std::string(char*)` constructor while the byte counter
advances by the full chunk size.  Returns the final buffer and the unread
remainder of the `recv` sequence. -/
def readLoop (cl : Nat) : List (List Char) → List Char → Nat →
    List Char × List (List Char)
  | reads, buf, received =>
    if cl ≤ received then (buf, reads)
    else
      match reads with
      | [] => (buf, [])
      | r :: rest =>
        if r.isEmpty then (buf, rest)
        else readLoop cl rest (buf ++ cstr r) (received + r.length)

/-- The read phase of `HttpServer::handle_client`, with `reads` the sequence
of `recv` results for the connection: `none` when the initial read yields no
bytes (connection abandoned without a response); otherwise the buffer that
is handed to `parse_request`, together with the unread remainder of the
`recv` sequence.  The initial chunk also passes through the NUL-truncating
constructor; when the `Content-Length` line cannot be located the buffer is
used as is, and a failed `stoul` makes the declared length 0. -/
def handle_client_read : List (List Char) → Option (List Char × List (List Char))
  | [] => none
  | r0 :: rest =>
    if r0.isEmpty then none
    else
      match findSub "Content-Length:".data (cstr r0) with
      | none => some (cstr r0, rest)
      | some i =>
        match findSubFrom (cstr r0) "\r\n".data i with
        | none => some (cstr r0, rest)
        | some j =>
          match findSub "\r\n\r\n".data (cstr r0) with
          | none => some (cstr r0, rest)
          | some he =>
            some (readLoop
              ((stoulOpt (trimC (((cstr r0).drop (i + 15)).take (j - i - 15)))).getD 0)
              rest (cstr r0) ((cstr r0).length - (he + 4)))

theorem readLoop_done (cl : Nat) (reads : List (List Char)) (buf : List Char)
    (received : Nat) (h : cl ≤ received) :
    readLoop cl reads buf received = (buf, reads) := by
  rw [readLoop.eq_def]
  simp [h]

/-- Claim C7: when the buffer after the initial read has no locatable,
parseable `Content-Length` value, `handle_client` performs no additional
body reads — the `recv` sequence is left untouched and the bytes already
received (as seen through the NUL-truncating constructor) are passed on as
the complete request, silently. -/
theorem C7_malformed_content_length (r0 : List Char) (rest : List (List Char))
    (h0 : r0.isEmpty = false) (hcl : clParse (cstr r0) = none) :
    handle_client_read (r0 :: rest) = some (cstr r0, rest) := by
  unfold clParse at hcl
  simp only [handle_client_read]
  rw [if_neg (by simp [h0])]
  cases h1 : findSub "Content-Length:".data (cstr r0) with
  | none => rfl
  | some i =>
    rw [h1] at hcl
    simp only [] at hcl
    cases h2 : findSubFrom (cstr r0) "\r\n".data i with
    | none => simp only [h2]
    | some j =>
      rw [h2] at hcl
      simp only [] at hcl
      simp only [h2]
      cases h3 : findSub "\r\n\r\n".data (cstr r0) with
      | none => simp only [h3]
      | some he =>
        simp only [h3, hcl, Option.getD_none]
        rw [readLoop_done 0 rest (cstr r0) _ (Nat.zero_le _)]

/-- Witness for C7: a request whose `Content-Length` value is the
unparsable text `abc`; the pending second read is left unconsumed. -/
theorem C7_malformed_content_length_witness :
    handle_client_read ["GET / HTTP/1.1\r\nContent-Length: abc\r\n\r\n".data,
        "XY".data] =
      some (cstr "GET / HTTP/1.1\r\nContent-Length: abc\r\n\r\n".data,
        ["XY".data]) :=
  C7_malformed_content_length _ _ (by decide) (by decide)

/-- The initial request chunk of claim C2's failing input: headers declaring
`Content-Length: 2` and an empty body so far. -/
def c2Head : List Char :=
  "POST / HTTP/1.1\r\nContent-Length: 2\r\n\r\n".data

/-- Claim C2 at its failing input: the headers declare a body of 2 bytes
and the peer then sends the 2-byte chunk NUL `A` in one further read.  The
declared length is parsed as 2, the header terminator sits at offset 34 of
the 38-byte buffer (so 0 body bytes arrived initially), and the loop
consumes the 2-byte read (remainder empty, the peer never sent an empty
read) — yet the final buffer is still the bare 38-byte header block: the
chunk was appended through the NUL-truncating `std::string(char*)`
constructor, so the accumulated body has 0 bytes, not the declared 2. -/
theorem C2_nul_truncation :
    handle_client_read [c2Head, [Char.ofNat 0, 'A']] = some (c2Head, []) ∧
    clParse c2Head = some 2 ∧
    findSub "\r\n\r\n".data c2Head = some 34 ∧
    c2Head.length = 38 := by
  decide
